import Mathlib

/-!
# Verification of the lazytodo document model (main.go)

A shallow embedding of the core of `lazytodo`, a terminal todo manager for
markdown checkbox lists.  Strings are modelled as lists of characters
(`Str`); the single-file Go program's `model` struct is embedded as the
`Model` structure below, keeping the source's field and function names
where Lean allows it.  Render-only state (status messages, the glamour
renderer, window sizes, text-input focus/placeholder) is omitted: no
verified property reads it.  Disk I/O is modelled by passing the stat /
read results as explicit parameters (`handleFileCheck`,
`handleEditorFinished`) and by treating writes as succeeding
(`saveOk`), which mirrors `saveAndSetStatus`'s state effect apart from
the refreshed on-disk timestamp.
-/

namespace LazyTodo

/-- Go strings are modelled as lists of characters. -/
abbrev Str := List Char

/-- Shorthand to write character-list literals. -/
def str (s : String) : Str := s.toList

/-- The character class of Go `regexp`'s `\s`, i.e. `[\t\n\f\r ]`. -/
def isRegexSpace (c : Char) : Bool :=
  c == '\t' || c == '\n' || c == '\x0c' || c == '\r' || c == ' '

/-- Go's `unicode.IsSpace` (the class used by `strings.TrimSpace`):
White_Space code points. -/
def isUnicodeSpace (c : Char) : Bool :=
  (9 ≤ c.toNat && c.toNat ≤ 13) || c.toNat == 32 || c.toNat == 0x85 ||
  c.toNat == 0xA0 || c.toNat == 0x1680 ||
  (0x2000 ≤ c.toNat && c.toNat ≤ 0x200A) ||
  c.toNat == 0x2028 || c.toNat == 0x2029 || c.toNat == 0x202F ||
  c.toNat == 0x205F || c.toNat == 0x3000

/-- Go `strings.TrimSpace`: drop Unicode white space from both ends. -/
def trimSpace (l : Str) : Str :=
  ((l.dropWhile isUnicodeSpace).reverse.dropWhile isUnicodeSpace).reverse

/-- The Go `task` struct: one parsed checkbox line. -/
structure Task where
  Indent : Str
  Bullet : Str
  Completed : Bool
  Text : Str
deriving DecidableEq

/-- The Go `lineItem` struct (a `Kind` tag plus payload), embedded as a sum. -/
inductive LineItem where
  | lineTask (t : Task)
  | lineSection (title : Str)
deriving DecidableEq

instance : Inhabited LineItem := ⟨LineItem.lineSection []⟩

def LineItem.isTask : LineItem → Bool
  | .lineTask _ => true
  | .lineSection _ => false

def LineItem.isSection : LineItem → Bool
  | .lineTask _ => false
  | .lineSection _ => true

/-- `func (t task) line() string`: serialize one task. -/
def Task.line (t : Task) : Str :=
  t.Indent ++ t.Bullet ++ (' ' :: '[' :: (if t.Completed then 'x' else ' ') :: ']' :: ' ' :: t.Text)

/-- `func (l lineItem) line() string`: serialize one line item. -/
def LineItem.line : LineItem → Str
  | .lineSection title => '#' :: '#' :: ' ' :: title
  | .lineTask t => t.line

/-- The `\[([ xX])\]\s*(.*)$` tail of the checkbox regex: the bracketed
mark, then the task text with its leading white space stripped by the
greedy `\s*`; `.` does not match a newline, so a newline left in the
trailing text makes the whole match fail.  `ws` is the run matched by the
preceding `\s+` (it must be non-empty). -/
def parseBox (indent : Str) (b : Char) (ws : Str) : Str → Option Task
  | '[' :: mk :: ']' :: rest3 =>
    if 1 ≤ ws.length ∧ (mk = ' ' ∨ mk = 'x' ∨ mk = 'X') then
      let text := rest3.dropWhile isRegexSpace
      if '\n' ∈ text then none
      else some { Indent := indent, Bullet := [b],
                  Completed := (mk = 'x' ∨ mk = 'X'), Text := text }
    else none
  | _ => none

/-- The `([-*])\s+…` part of the checkbox regex, applied after the leading
`(\s*)` indent has been stripped. -/
def parseBullet (indent : Str) : Str → Option Task
  | b :: rest1 =>
    if b = '-' ∨ b = '*' then
      parseBox indent b (rest1.takeWhile isRegexSpace) (rest1.dropWhile isRegexSpace)
    else none
  | [] => none

/-- The checkbox regex `^(\s*)([-*])\s+\[([ xX])\]\s*(.*)$` applied to one
line, with Go (RE2, leftmost-first) match semantics: each `\s*`/`\s+` is
greedy and the literal that follows it is not white space, so no
backtracking alternative exists and the regex decomposes into the
sequential component parsers above. -/
def parseCheckbox (l : Str) : Option Task :=
  parseBullet (l.takeWhile isRegexSpace) (l.dropWhile isRegexSpace)

/-- The section regex `^##\s+(.*)$` applied to one line (same semantics). -/
def parseSection (l : Str) : Option Str :=
  match l with
  | '#' :: '#' :: rest =>
    let ws := rest.takeWhile isRegexSpace
    let title := rest.dropWhile isRegexSpace
    if 1 ≤ ws.length ∧ '\n' ∉ title then some title else none
  | _ => none

/-- The per-line classification inside `loadLines`: skip blank lines, try
the section pattern first, then the checkbox pattern, else skip. -/
def parseLine (l : Str) : Option LineItem :=
  if trimSpace l = [] then none
  else
    match parseSection l with
    | some title => some (.lineSection title)
    | none =>
      match parseCheckbox l with
      | some t => some (.lineTask t)
      | none => none

/-- Split a string on the newline character (Go `strings.Split(s, "\n")`). -/
def splitOnNewline (s : Str) : List Str :=
  match s with
  | [] => [[]]
  | c :: rest =>
    let tail := splitOnNewline rest
    if c = '\n' then [] :: tail
    else
      match tail with
      | first :: more => (c :: first) :: more
      | [] => [[c]]

/-- The pure part of `loadLines`: strip carriage returns, split on
newlines, and keep the lines the grammar accepts, in order. -/
def loadItems (content : Str) : List LineItem :=
  ((splitOnNewline (content.filter (fun c => c ≠ '\r'))).filterMap parseLine)

example : parseLine (str "- [ ] buy milk") =
    some (.lineTask ⟨[], str "-", false, str "buy milk"⟩) := by decide

example : parseLine (str "## Work") = some (.lineSection (str "Work")) := by decide

example : parseLine (str "  * [X] pay rent") =
    some (.lineTask ⟨str "  ", str "*", true, str "pay rent"⟩) := by decide

example : parseLine (str "   ") = none := by decide

example : parseLine (str "just prose") = none := by decide

/-! ## The application state (`model`) and its helpers -/

/-- One frame of history: the Go `undoState` struct. -/
structure UndoState where
  lines : List LineItem
  cursor : Int
deriving DecidableEq

/-- `const maxUndoHistory = 10`. -/
def maxUndoHistory : Nat := 10

inductive Mode where
  | modeNormal
  | modeEdit
deriving DecidableEq

inductive EditIntent where
  | editIntentNone
  | editIntentUpdate
  | editIntentInsert
deriving DecidableEq

inductive EditTarget where
  | editTargetTask
  | editTargetSection
deriving DecidableEq

/-- The Go `model` struct, restricted to the state the verified claims
read.  `textInputValue` is the text-input's current value; `errFlag`
records whether `m.err` is non-nil (error values themselves are opaque);
`filePath`, the renderer, window sizes and the status message are
render-only and omitted. -/
structure Model where
  lines : List LineItem
  cursor : Int
  mode : Mode
  textInputValue : Str
  editIntent : EditIntent
  editTarget : EditTarget
  editIndex : Int
  insertIndex : Int
  editTemplate : Task
  errFlag : Bool
  lastModifiedAt : Int
  pendingReload : Bool
  selectionActive : Bool
  selectionAnchor : Int
  externalEditIdx : Int
  undoStack : List UndoState
  redoStack : List UndoState
  pendingD : Bool
deriving DecidableEq

/-- `func clampCursor(cursor int, length int) int`. -/
def clampCursor (cursor : Int) (length : Nat) : Int :=
  if length = 0 then 0
  else if cursor < 0 then 0
  else if cursor ≥ (length : Int) then (length : Int) - 1
  else cursor

/-- `func clampIndex(index, length int) int`. -/
def clampIndex (index : Int) (length : Nat) : Int :=
  if index < 0 then 0
  else if index > (length : Int) then (length : Int)
  else index

/-- Go `m.lines[i]` for an `int` index; all call sites guard
`0 <= i && i < len(m.lines)` first, so the default is never read there. -/
def getLine (lines : List LineItem) (i : Int) : LineItem :=
  lines.getD i.toNat default

/-- In-place update `m.lines[i].…= v` of a single element. -/
def modifyIdx (lines : List LineItem) (i : Nat) (f : LineItem → LineItem) : List LineItem :=
  match lines, i with
  | [], _ => []
  | x :: xs, 0 => f x :: xs
  | x :: xs, n + 1 => x :: modifyIdx xs n f

/-- `slices.Insert(lines, i, item)` (call sites clamp `i` into `[0,len]`). -/
def insertAt (lines : List LineItem) (i : Nat) (item : LineItem) : List LineItem :=
  lines.take i ++ item :: lines.drop i

/-- `append(lines[:i], lines[i+1:]...)` (call sites keep `i` in `[0,len)`). -/
def eraseAt (lines : List LineItem) (i : Nat) : List LineItem :=
  lines.take i ++ lines.drop (i + 1)

/-- `func defaultTaskTemplate(lines []lineItem) task`: the first task of
the document, completion cleared, or an unindented `-` task. -/
def defaultTaskTemplate : List LineItem → Task
  | [] => ⟨[], str "-", false, []⟩
  | .lineTask t :: _ => ⟨t.Indent, t.Bullet, false, []⟩
  | .lineSection _ :: rest => defaultTaskTemplate rest

/-- The state effect of `saveAndSetStatus` when the disk write succeeds:
the error is cleared (the refreshed timestamp and status text are not
tracked). -/
def saveOk (m : Model) : Model :=
  { m with errFlag := false }

/-- `func (m model) clearSelection() model`. -/
def clearSelection (m : Model) : Model :=
  { m with selectionActive := false }

/-- `func (m model) normalizeSelection() model`. -/
def normalizeSelection (m : Model) : Model :=
  if ¬m.selectionActive then m
  else if m.lines = [] then { m with selectionActive := false }
  else
    let a := if m.selectionAnchor < 0 then 0 else m.selectionAnchor
    let a := if a ≥ (m.lines.length : Int) then (m.lines.length : Int) - 1 else a
    { m with selectionAnchor := a }

/-- `func (m model) selectionRange() (int, int, bool)`. -/
def selectionRange (m : Model) : Option (Int × Int) :=
  if ¬m.selectionActive ∨ m.lines = [] then none
  else
    let anchor := clampCursor m.selectionAnchor m.lines.length
    let cursor := clampCursor m.cursor m.lines.length
    if anchor ≤ cursor then some (anchor, cursor) else some (cursor, anchor)

/-! ## Undo/redo manager -/

/-- `func (m model) saveUndoState() model`: push a deep copy of the
document plus cursor, evict the oldest frame past the bound, clear redo. -/
def saveUndoState (m : Model) : Model :=
  let state : UndoState := ⟨m.lines, m.cursor⟩
  let stack := m.undoStack ++ [state]
  let stack := if stack.length > maxUndoHistory then stack.drop 1 else stack
  { m with undoStack := stack, redoStack := [] }

/-- `func (m model) undo() model`. -/
def undo (m : Model) : Model :=
  match m.undoStack.getLast? with
  | none => m
  | some state =>
    { m with
      redoStack := m.redoStack ++ [⟨m.lines, m.cursor⟩],
      undoStack := m.undoStack.dropLast,
      lines := state.lines,
      cursor := clampCursor state.cursor state.lines.length }

/-- `func (m model) redo() model`. -/
def redo (m : Model) : Model :=
  match m.redoStack.getLast? with
  | none => m
  | some state =>
    { m with
      undoStack := m.undoStack ++ [⟨m.lines, m.cursor⟩],
      redoStack := m.redoStack.dropLast,
      lines := state.lines,
      cursor := clampCursor state.cursor state.lines.length }

/-! ## Deletion -/

/-- `func (m model) deleteCurrentTask() (tea.Model, tea.Cmd)`. -/
def deleteCurrentTask (m : Model) : Model :=
  if m.lines = [] ∨ ¬(getLine m.lines m.cursor).isTask then m
  else
    let m := saveUndoState m
    let m := clearSelection m
    let m := { m with lines := eraseAt m.lines m.cursor.toNat }
    let m := { m with cursor := clampCursor m.cursor m.lines.length }
    saveOk m

/-- `func (m model) deleteCurrentSection() (tea.Model, tea.Cmd)`. -/
def deleteCurrentSection (m : Model) : Model :=
  if m.lines = [] ∨ ¬(getLine m.lines m.cursor).isSection then m
  else
    let m := saveUndoState m
    let m := clearSelection m
    let m := { m with lines := eraseAt m.lines m.cursor.toNat }
    let m := { m with cursor := clampCursor (m.cursor - 1) m.lines.length }
    saveOk m

/-- `func (m model) deleteCurrentLine() (tea.Model, tea.Cmd)`. -/
def deleteCurrentLine (m : Model) : Model :=
  if m.lines = [] then m
  else if (getLine m.lines m.cursor).isSection then deleteCurrentSection m
  else deleteCurrentTask m

/-! ## Edit session -/

/-- `func (m model) applyCurrentEdit(value string) model`: apply the
pending edit without saving or leaving edit mode.  Note that only the
section branches call `saveUndoState`. -/
def applyCurrentEdit (m : Model) (value : Str) : Model :=
  match m.editTarget with
  | .editTargetSection =>
    match m.editIntent with
    | .editIntentUpdate =>
      if m.lines = [] then m
      else if 0 ≤ m.editIndex ∧ m.editIndex < (m.lines.length : Int) ∧
              (getLine m.lines m.editIndex).isSection then
        let m := saveUndoState m
        { m with lines := modifyIdx m.lines m.editIndex.toNat (fun _ => .lineSection value) }
      else m
    | .editIntentInsert =>
      let newSection := LineItem.lineSection value
      let m := { m with insertIndex := clampIndex m.insertIndex m.lines.length }
      let m := saveUndoState m
      { m with lines := insertAt m.lines m.insertIndex.toNat newSection,
               cursor := m.insertIndex }
    | .editIntentNone => m
  | .editTargetTask =>
    match m.editIntent with
    | .editIntentUpdate =>
      if m.lines = [] then m
      else if 0 ≤ m.editIndex ∧ m.editIndex < (m.lines.length : Int) ∧
              (getLine m.lines m.editIndex).isTask then
        let setText : LineItem → LineItem := fun it =>
          match it with
          | .lineTask t => .lineTask { t with Text := value }
          | other => other
        { m with lines := modifyIdx m.lines m.editIndex.toNat setText }
      else m
    | .editIntentInsert =>
      let newTask := LineItem.lineTask
        ⟨m.editTemplate.Indent, m.editTemplate.Bullet, false, value⟩
      let m := { m with insertIndex := clampIndex m.insertIndex m.lines.length }
      { m with lines := insertAt m.lines m.insertIndex.toNat newTask,
               cursor := m.insertIndex }
    | .editIntentNone => m

/-- `func (m model) exitEditMode() model`: reset transient edit state,
re-clamping the cursor against the current document length. -/
def exitEditMode (m : Model) : Model :=
  let m := { m with mode := .modeNormal, editIntent := .editIntentNone,
                    editTarget := .editTargetTask, pendingReload := false,
                    editIndex := -1 }
  let m := { m with cursor := clampCursor m.cursor m.lines.length }
  let m := { m with textInputValue := [] }
  normalizeSelection m

/-- `func (m model) finishEdit() (tea.Model, tea.Cmd)`. -/
def finishEdit (m : Model) : Model :=
  if trimSpace m.textInputValue = [] then m
  else
    let m := applyCurrentEdit m m.textInputValue
    let m := saveOk m
    let m := exitEditMode m
    if m.pendingReload then { m with pendingReload := false } else m

/-- The `tea.KeyEsc` case of `handleEditKey`: commit a non-blank draft
(Obsidian-style save-and-exit), then leave edit mode. -/
def editKeyEsc (m : Model) : Model :=
  if trimSpace m.textInputValue ≠ [] then
    exitEditMode (saveOk (applyCurrentEdit m m.textInputValue))
  else exitEditMode m

/-- The `tea.KeyEnter` case of `handleEditKey`: commit a non-blank draft,
then for a task target re-enter insert mode one line below
(commit-and-continue); a blank draft just leaves edit mode. -/
def editKeyEnter (m : Model) : Model :=
  if trimSpace m.textInputValue = [] then exitEditMode m
  else
    let m := applyCurrentEdit m m.textInputValue
    let m := saveOk m
    if m.editTarget = .editTargetTask then
      let m := { m with insertIndex := m.cursor + 1 }
      let m := { m with editIndex := m.insertIndex, editIntent := .editIntentInsert }
      let m := { m with cursor := m.editIndex }
      { m with textInputValue := [] }
    else exitEditMode m

/-- `func (m model) startEditTask() model` (state fields only). -/
def startEditTask (m : Model) : Model :=
  if m.lines = [] ∨ ¬(getLine m.lines m.cursor).isTask then m
  else
    let m := clearSelection m
    let m := { m with mode := .modeEdit, editIntent := .editIntentUpdate,
                      editTarget := .editTargetTask }
    let m := { m with textInputValue :=
                 match getLine m.lines m.cursor with
                 | .lineTask t => t.Text
                 | .lineSection _ => [] }
    { m with editIndex := m.cursor }

/-- `func (m model) startEditSection() model` (state fields only). -/
def startEditSection (m : Model) : Model :=
  if m.lines = [] ∨ ¬(getLine m.lines m.cursor).isSection then m
  else
    let m := clearSelection m
    let m := { m with mode := .modeEdit, editIntent := .editIntentUpdate,
                      editTarget := .editTargetSection }
    let m := { m with textInputValue :=
                 match getLine m.lines m.cursor with
                 | .lineSection title => title
                 | .lineTask _ => [] }
    { m with editIndex := m.cursor }

/-- `func (m model) startInsertTaskAt(index int) model`. -/
def startInsertTaskAt (m : Model) (index : Int) : Model :=
  let template :=
    if m.lines ≠ [] ∧ 0 ≤ m.cursor ∧ m.cursor < (m.lines.length : Int) ∧
       (getLine m.lines m.cursor).isTask then
      match getLine m.lines m.cursor with
      | .lineTask t => Task.mk t.Indent t.Bullet false []
      | .lineSection _ => m.editTemplate
    else m.editTemplate
  let m := clearSelection m
  let m := { m with mode := .modeEdit, editIntent := .editIntentInsert,
                    editTarget := .editTargetTask }
  let m := { m with insertIndex :=
               if m.lines = [] then 0 else clampIndex index m.lines.length }
  let m := { m with editIndex := m.insertIndex }
  let m := { m with cursor := m.editIndex }
  { m with textInputValue := [], editTemplate := template }

/-- `func (m model) startInsertSectionAt(index int) model`. -/
def startInsertSectionAt (m : Model) (index : Int) : Model :=
  let m := clearSelection m
  let m := { m with mode := .modeEdit, editIntent := .editIntentInsert,
                    editTarget := .editTargetSection }
  let m := { m with insertIndex :=
               if m.lines = [] then 0 else clampIndex index m.lines.length }
  let m := { m with editIndex := m.insertIndex }
  let m := { m with cursor := m.editIndex }
  { m with textInputValue := [] }

/-! ## Toggling (the enter/space case of `handleNormalKey`) -/

/-- Flip one task's `Completed` flag; section headers are skipped
(`continue` in the loop). -/
def toggleItem : LineItem → LineItem
  | .lineTask t => .lineTask { t with Completed := !t.Completed }
  | .lineSection title => .lineSection title

/-- The loop `for i := start; i <= end; i++` of the toggle handler. -/
def toggleInRangeFrom (s e : Int) (i : Nat) : List LineItem → List LineItem
  | [] => []
  | item :: rest =>
    (if s ≤ (i : Int) ∧ (i : Int) ≤ e then toggleItem item else item) ::
      toggleInRangeFrom s e (i + 1) rest

def toggleInRange (lines : List LineItem) (s e : Int) : List LineItem :=
  toggleInRangeFrom s e 0 lines

/-- The toggle count: how many tasks lie at indices in `[s,e]` (section
headers are skipped, not counted). -/
def countTasksInRangeFrom (s e : Int) (i : Nat) : List LineItem → Nat
  | [] => 0
  | item :: rest =>
    (if s ≤ (i : Int) ∧ (i : Int) ≤ e ∧ item.isTask then 1 else 0) +
      countTasksInRangeFrom s e (i + 1) rest

/-- The `"enter", " "` case of `handleNormalKey`: toggle the selection
range, or the single item under the cursor; nothing is written to disk
when no task was toggled (`count == 0`). -/
def toggleKey (m : Model) : Model :=
  if m.lines = [] then m
  else if m.selectionActive then
    match selectionRange m with
    | some (s, e) =>
      let count := countTasksInRangeFrom s e 0 m.lines
      let m := { m with lines := toggleInRange m.lines s e, selectionActive := false }
      if count = 0 then m else saveOk m
    | none => { m with selectionActive := false }
  else
    if (getLine m.lines m.cursor).isTask then
      let m := { m with lines := modifyIdx m.lines m.cursor.toNat toggleItem }
      saveOk m
    else m

/-! ## Persistence / reconciliation and the external editor -/

/-- The outcome of `os.Stat` on the managed file. -/
inductive StatResult where
  | notExist
  | statFailed
  | found (modTime : Int)
deriving DecidableEq

/-- `func (m model) handleFileCheck() model`, with the stat outcome and
the (lines, modTime) result of `loadLines` passed in explicitly
(`loadResult = none` models a read error). -/
def handleFileCheck (m : Model) (st : StatResult)
    (loadResult : Option (List LineItem × Int)) : Model :=
  match st with
  | .notExist => m
  | .statFailed => { m with errFlag := true }
  | .found t =>
    if ¬(t > m.lastModifiedAt) then m
    else if m.mode = .modeEdit then { m with pendingReload := true }
    else
      match loadResult with
      | none => { m with errFlag := true }
      | some (lines, modTime) =>
        let m := { m with lines := lines }
        let m := { m with cursor := clampCursor m.cursor m.lines.length }
        let m := normalizeSelection m
        { m with lastModifiedAt := modTime, errFlag := false,
                 editTemplate := defaultTaskTemplate m.lines }

/-- The outcome of the external editor subprocess. -/
inductive EditorResult where
  | procFailed
  | readFailed
  | content (s : Str)
deriving DecidableEq

/-- `func (m model) handleEditorFinished(msg editorFinishedMsg)`. -/
def handleEditorFinished (m : Model) (res : EditorResult) : Model :=
  match res with
  | .procFailed => { m with errFlag := true, externalEditIdx := -1 }
  | .readFailed => { m with errFlag := true, externalEditIdx := -1 }
  | .content s =>
    let newText := trimSpace s
    if newText = [] then { m with externalEditIdx := -1 }
    else
      if 0 ≤ m.externalEditIdx ∧ m.externalEditIdx < (m.lines.length : Int) ∧
         (getLine m.lines m.externalEditIdx).isTask then
        let setText : LineItem → LineItem := fun it =>
          match it with
          | .lineTask t => .lineTask { t with Text := newText }
          | other => other
        let m := { m with lines := modifyIdx m.lines m.externalEditIdx.toNat setText }
        let m := saveOk m
        { m with externalEditIdx := -1 }
      else { m with externalEditIdx := -1 }

/-! ## List lemmas for the grammar proofs -/

theorem dropWhile_append_all {p : Char → Bool} {xs ys : Str}
    (h : ∀ c ∈ xs, p c = true) :
    (xs ++ ys).dropWhile p = ys.dropWhile p := by
  induction xs with
  | nil => rfl
  | cons a xs ih =>
    have ha : p a = true := h a (List.mem_cons_self a xs)
    simp only [List.cons_append, List.dropWhile_cons, ha, if_true]
    exact ih (fun c hc => h c (List.mem_cons_of_mem a hc))

theorem takeWhile_append_all {p : Char → Bool} {xs ys : Str}
    (h : ∀ c ∈ xs, p c = true) :
    (xs ++ ys).takeWhile p = xs ++ ys.takeWhile p := by
  induction xs with
  | nil => rfl
  | cons a xs ih =>
    have ha : p a = true := h a (List.mem_cons_self a xs)
    simp only [List.cons_append, List.takeWhile_cons, ha, if_true, List.cons_inj_right]
    exact ih (fun c hc => h c (List.mem_cons_of_mem a hc))

theorem mem_dropWhile_of_neg {p : Char → Bool} {c : Char} (hc : p c = false) :
    ∀ {l : Str}, c ∈ l → c ∈ l.dropWhile p := by
  intro l
  induction l with
  | nil => intro h; exact absurd h (List.not_mem_nil c)
  | cons a xs ih =>
    intro hmem
    by_cases ha : p a = true
    · simp only [List.dropWhile_cons, ha, if_true]
      rcases List.mem_cons.mp hmem with rfl | hx
      · rw [ha] at hc; exact absurd hc (by simp)
      · exact ih hx
    · simp only [List.dropWhile_cons, ha, if_false]
      exact hmem

theorem trimSpace_ne_nil_of_mem {l : Str} {c : Char}
    (hmem : c ∈ l) (hc : isUnicodeSpace c = false) : trimSpace l ≠ [] := by
  intro hnil
  unfold trimSpace at hnil
  rw [List.reverse_eq_nil_iff] at hnil
  have hall := List.dropWhile_eq_nil_iff.mp hnil
  have h1 : c ∈ l.dropWhile isUnicodeSpace := mem_dropWhile_of_neg hc hmem
  have h2 : c ∈ (l.dropWhile isUnicodeSpace).reverse := List.mem_reverse.mpr h1
  have := hall c h2
  rw [hc] at this
  exact absurd this (by simp)

/-! ## Claim C3: grammar round trip -/

/-- The well-formedness condition under which serialization round-trips:
white-space-only indent (in the `\s` class the parser strips), a `-` or
`*` bullet, and text that has no leading `\s` white space and no embedded
newline.  The claim as frozen omits the no-leading-white-space condition;
the counterexample below shows it is required. -/
def wfItem : LineItem → Prop
  | .lineTask t =>
      (∀ c ∈ t.Indent, isRegexSpace c = true) ∧
      (t.Bullet = ['-'] ∨ t.Bullet = ['*']) ∧
      t.Text.dropWhile isRegexSpace = t.Text ∧ '\n' ∉ t.Text
  | .lineSection title =>
      title.dropWhile isRegexSpace = title ∧ '\n' ∉ title

instance : DecidablePred wfItem := by
  intro x
  cases x with
  | lineTask t => exact inferInstanceAs (Decidable (_ ∧ _ ∧ _ ∧ _))
  | lineSection title => exact inferInstanceAs (Decidable (_ ∧ _))

theorem parseSection_not_hash {c : Char} (tail : Str) (h : c ≠ '#') :
    parseSection (c :: tail) = none := by
  unfold parseSection
  split
  · next heq => rw [List.cons.injEq] at heq; exact absurd heq.1 h
  · rfl

theorem parseCheckbox_line (indent text : Str) (b : Char) (completed : Bool)
    (hind : ∀ c ∈ indent, isRegexSpace c = true)
    (hb : b = '-' ∨ b = '*')
    (hlead : text.dropWhile isRegexSpace = text)
    (hnl : '\n' ∉ text) :
    parseCheckbox
        (indent ++ b :: ' ' :: '[' :: (if completed then 'x' else ' ') :: ']' :: ' ' :: text) =
      some ⟨indent, [b], completed, text⟩ := by
  have hbneg : ¬isRegexSpace b = true := by
    rcases hb with rfl | rfl <;> decide
  have htake :
      (indent ++ b :: ' ' :: '[' :: (if completed then 'x' else ' ') :: ']' :: ' ' :: text).takeWhile
          isRegexSpace = indent := by
    rw [takeWhile_append_all hind, List.takeWhile_cons_of_neg hbneg, List.append_nil]
  have hdrop :
      (indent ++ b :: ' ' :: '[' :: (if completed then 'x' else ' ') :: ']' :: ' ' :: text).dropWhile
          isRegexSpace =
        b :: ' ' :: '[' :: (if completed then 'x' else ' ') :: ']' :: ' ' :: text := by
    rw [dropWhile_append_all hind, List.dropWhile_cons_of_neg hbneg]
  unfold parseCheckbox
  rw [htake, hdrop]
  cases completed with
  | false =>
    simp only [parseBullet, if_false]
    rw [if_pos hb]
    rw [List.takeWhile_cons_of_pos (by decide), List.takeWhile_cons_of_neg (by decide)]
    rw [List.dropWhile_cons_of_pos (by decide), List.dropWhile_cons_of_neg (by decide)]
    simp only [parseBox]
    rw [List.dropWhile_cons_of_pos (by decide : isRegexSpace ' ' = true), hlead]
    simp [hnl]
  | true =>
    simp only [parseBullet, if_true]
    rw [if_pos hb]
    rw [List.takeWhile_cons_of_pos (by decide), List.takeWhile_cons_of_neg (by decide)]
    rw [List.dropWhile_cons_of_pos (by decide), List.dropWhile_cons_of_neg (by decide)]
    simp only [parseBox]
    rw [List.dropWhile_cons_of_pos (by decide : isRegexSpace ' ' = true), hlead]
    simp [hnl]

/-- Claim C3 (amended): for every constructible LineItem whose indent is
composed of `\s`-class white space, whose bullet is `-` or `*`, and whose
text/title has no embedded newline and no leading `\s`-class white space,
parsing the serialized form yields the item back:
`parseLine (x.line) = some x`. -/
theorem c3_parse_serialize_roundtrip (x : LineItem) (h : wfItem x) :
    parseLine x.line = some x := by
  cases x with
  | lineSection title =>
    obtain ⟨hlead, hnl⟩ := h
    have hblank : trimSpace (LineItem.lineSection title).line ≠ [] := by
      apply trimSpace_ne_nil_of_mem (c := '#')
      · exact List.mem_cons_self _ _
      · decide
    unfold parseLine
    rw [if_neg hblank]
    show (match parseSection ('#' :: '#' :: ' ' :: title) with
          | some t => some (LineItem.lineSection t)
          | none => _) = _
    unfold parseSection
    simp only [List.takeWhile_cons, List.dropWhile_cons,
      show isRegexSpace ' ' = true by decide, if_true, hlead]
    rw [if_pos ⟨by simp, hnl⟩]
  | lineTask t =>
    obtain ⟨indent, bullet, completed, text⟩ := t
    obtain ⟨hind, hb, hlead, hnl⟩ := h
    simp only at hind hlead hnl
    have hline : (LineItem.lineTask ⟨indent, bullet, completed, text⟩).line =
        indent ++ bullet.headD ' ' :: ' ' :: '[' ::
          (if completed then 'x' else ' ') :: ']' :: ' ' :: text := by
      rcases hb with rfl | rfl <;>
        simp [LineItem.line, Task.line, List.append_assoc]
    have hbmem : bullet.headD ' ' = '-' ∨ bullet.headD ' ' = '*' := by
      rcases hb with rfl | rfl
      · exact Or.inl rfl
      · exact Or.inr rfl
    have hblank : trimSpace (LineItem.lineTask ⟨indent, bullet, completed, text⟩).line ≠ [] := by
      apply trimSpace_ne_nil_of_mem (c := '[')
      · rw [hline]; simp
      · decide
    have hsec : parseSection (LineItem.lineTask ⟨indent, bullet, completed, text⟩).line = none := by
      rw [hline]
      cases indent with
      | nil =>
        rw [List.nil_append]
        apply parseSection_not_hash
        rcases hbmem with hc | hc <;> rw [hc] <;> decide
      | cons c cs =>
        rw [List.cons_append]
        apply parseSection_not_hash
        intro hc
        have := hind c (List.mem_cons_self c cs)
        rw [hc] at this
        exact absurd this (by decide)
    have hcb : parseCheckbox (LineItem.lineTask ⟨indent, bullet, completed, text⟩).line =
        some ⟨indent, [bullet.headD ' '], completed, text⟩ := by
      rw [hline]
      exact parseCheckbox_line indent text _ completed hind hbmem hlead hnl
    have hbl : [bullet.headD ' '] = bullet := by
      rcases hb with rfl | rfl <;> rfl
    unfold parseLine
    rw [if_neg hblank, hsec, hcb, hbl]

/-! ## The cursor invariant and clamping lemmas -/

/-- The spec's cursor invariant for an index over a document of length
`n`: in `[0, n-1]` when the document is non-empty, `0` when empty. -/
def cursorOKIdx (c : Int) (n : Nat) : Prop :=
  (n = 0 ∧ c = 0) ∨ (0 ≤ c ∧ c < (n : Int))

instance (c : Int) (n : Nat) : Decidable (cursorOKIdx c n) := by
  unfold cursorOKIdx
  infer_instance

/-- The cursor invariant for a model. -/
def cursorOK (m : Model) : Prop :=
  cursorOKIdx m.cursor m.lines.length

instance (m : Model) : Decidable (cursorOK m) := by
  unfold cursorOK
  infer_instance

theorem clampCursor_mem (c : Int) (n : Nat) : cursorOKIdx (clampCursor c n) n := by
  unfold cursorOKIdx clampCursor
  split_ifs <;> omega

theorem clampCursor_of_ok {c : Int} {n : Nat} (h : cursorOKIdx c n) :
    clampCursor c n = c := by
  unfold cursorOKIdx at h
  unfold clampCursor
  split_ifs <;> omega

theorem clampIndex_mem (i : Int) (n : Nat) :
    0 ≤ clampIndex i n ∧ clampIndex i n ≤ (n : Int) := by
  unfold clampIndex
  split_ifs <;> omega

/-- A neutral state used as the base of the concrete test states below:
the state right after `newModel` loads an empty document. -/
def baseModel : Model :=
  { lines := [], cursor := 0, mode := .modeNormal, textInputValue := [],
    editIntent := .editIntentNone, editTarget := .editTargetTask,
    editIndex := -1, insertIndex := 0,
    editTemplate := ⟨[], str "-", false, []⟩,
    errFlag := false, lastModifiedAt := 0, pendingReload := false,
    selectionActive := false, selectionAnchor := 0, externalEditIdx := -1,
    undoStack := [], redoStack := [], pendingD := false }

/-! ## Claim C3: witness and counterexample -/

def c3Item : LineItem := .lineTask ⟨str "  ", str "-", true, str "buy milk"⟩

/-- Witness for C3: the round trip evaluated at a concrete well-formed
task. -/
theorem c3_witness : wfItem c3Item ∧ parseLine c3Item.line = some c3Item :=
  ⟨by decide, c3_parse_serialize_roundtrip c3Item (by decide)⟩

/-- Claim C3 as frozen is false: the task with empty (hence white-space
only) indent, bullet `-`, and newline-free text `" a"` (one leading
space) does not round-trip — the greedy `\s*` after `]` swallows the
text's leading space, so parsing the serialized form returns text `"a"`
instead. -/
theorem c3_counterexample :
    parseLine ((LineItem.lineTask ⟨[], str "-", false, ' ' :: str "a"⟩).line) =
      some (.lineTask ⟨[], str "-", false, str "a"⟩) ∧
    parseLine ((LineItem.lineTask ⟨[], str "-", false, ' ' :: str "a"⟩).line) ≠
      some (.lineTask ⟨[], str "-", false, ' ' :: str "a"⟩) := by
  decide

/-! ## Frame lemmas for leaving edit mode -/

theorem exitEditMode_fields (m : Model) :
    (exitEditMode m).lines = m.lines ∧
    (exitEditMode m).cursor = clampCursor m.cursor m.lines.length ∧
    (exitEditMode m).mode = .modeNormal ∧
    (exitEditMode m).editIntent = .editIntentNone ∧
    (exitEditMode m).undoStack = m.undoStack ∧
    (exitEditMode m).redoStack = m.redoStack := by
  unfold exitEditMode normalizeSelection
  dsimp only
  split_ifs <;> simp

theorem cursorOK_exitEditMode (m : Model) : cursorOK (exitEditMode m) := by
  have h := exitEditMode_fields m
  unfold cursorOK
  rw [h.1, h.2.1]
  exact clampCursor_mem m.cursor m.lines.length

/-! ## Claim C2: Esc while editing -/

/-- Claim C2 (amended): Esc while editing always returns the session to
Normal with intent cleared and leaves the cursor clamped to the current
document; but the document is only guaranteed unchanged when the draft is
blank — a non-blank draft is committed (applied and saved) first
(Obsidian-style save-and-exit), as the counterexample shows. -/
theorem c2_escape_blank_cancels (m : Model) :
    (editKeyEsc m).mode = .modeNormal ∧
    (editKeyEsc m).editIntent = .editIntentNone ∧
    cursorOK (editKeyEsc m) ∧
    (trimSpace m.textInputValue = [] →
      (editKeyEsc m).lines = m.lines ∧
      (editKeyEsc m).cursor = clampCursor m.cursor m.lines.length) := by
  unfold editKeyEsc
  split_ifs with h
  · exact ⟨(exitEditMode_fields _).2.2.1, (exitEditMode_fields _).2.2.2.1,
      cursorOK_exitEditMode _, fun hblank => absurd hblank h⟩
  · refine ⟨(exitEditMode_fields _).2.2.1, (exitEditMode_fields _).2.2.2.1,
      cursorOK_exitEditMode _, fun _ => ⟨(exitEditMode_fields _).1, (exitEditMode_fields _).2.1⟩⟩

def c2Blank : Model :=
  { baseModel with
    lines := [.lineTask ⟨[], str "-", false, str "a"⟩],
    cursor := 0, mode := .modeEdit, editIntent := .editIntentUpdate,
    editTarget := .editTargetTask, editIndex := 0, textInputValue := str "  " }

/-- Witness for C2: Esc on a blank draft leaves the document unchanged
and re-clamps the cursor. -/
theorem c2_witness :
    (editKeyEsc c2Blank).lines = c2Blank.lines ∧
    (editKeyEsc c2Blank).cursor = clampCursor c2Blank.cursor c2Blank.lines.length :=
  (c2_escape_blank_cancels c2Blank).2.2.2 (by decide)

def c2Bad : Model :=
  { baseModel with
    lines := [.lineTask ⟨[], str "-", false, str "a"⟩],
    cursor := 0, mode := .modeEdit, editIntent := .editIntentUpdate,
    editTarget := .editTargetTask, editIndex := 0, textInputValue := str "b" }

/-- Claim C2 as frozen is false: with Update intent and the non-blank
draft `"b"` over the task `"a"`, the cancel key (Esc) does NOT discard
the change — `handleEditKey` commits it, mutating the document. -/
theorem c2_counterexample : (editKeyEsc c2Bad).lines ≠ c2Bad.lines := by decide

/-! ## Claim C4: cursor re-clamped by length-changing operations -/

theorem cursorOK_deleteCurrentTask (m : Model) (h : cursorOK m) :
    cursorOK (deleteCurrentTask m) := by
  unfold deleteCurrentTask
  dsimp only
  split_ifs
  · exact h
  · simp only [cursorOK, saveOk, saveUndoState, clearSelection]
    exact clampCursor_mem _ _

theorem cursorOK_deleteCurrentSection (m : Model) (h : cursorOK m) :
    cursorOK (deleteCurrentSection m) := by
  unfold deleteCurrentSection
  dsimp only
  split_ifs
  · exact h
  · simp only [cursorOK, saveOk, saveUndoState, clearSelection]
    exact clampCursor_mem _ _

theorem cursorOK_deleteCurrentLine (m : Model) (h : cursorOK m) :
    cursorOK (deleteCurrentLine m) := by
  unfold deleteCurrentLine
  split_ifs
  · exact h
  · exact cursorOK_deleteCurrentSection m h
  · exact cursorOK_deleteCurrentTask m h

theorem cursorOK_undo (m : Model) (h : cursorOK m) : cursorOK (undo m) := by
  unfold undo
  split
  · exact h
  · simp only [cursorOK]
    exact clampCursor_mem _ _

theorem cursorOK_redo (m : Model) (h : cursorOK m) : cursorOK (redo m) := by
  unfold redo
  split
  · exact h
  · simp only [cursorOK]
    exact clampCursor_mem _ _

theorem cursorOK_finishEdit (m : Model) (h : cursorOK m) : cursorOK (finishEdit m) := by
  unfold finishEdit
  dsimp only
  split_ifs
  · exact h
  · have := cursorOK_exitEditMode (saveOk (applyCurrentEdit m m.textInputValue))
    simpa [cursorOK] using this
  · exact cursorOK_exitEditMode (saveOk (applyCurrentEdit m m.textInputValue))

theorem cursorOK_editKeyEsc (m : Model) : cursorOK (editKeyEsc m) :=
  (c2_escape_blank_cancels m).2.2.1

theorem cursorOK_handleFileCheck (m : Model) (st : StatResult)
    (load : Option (List LineItem × Int)) (h : cursorOK m) :
    cursorOK (handleFileCheck m st load) := by
  unfold handleFileCheck
  match st with
  | .notExist => exact h
  | .statFailed => simpa [cursorOK] using h
  | .found t =>
    dsimp only
    split_ifs <;>
      first
        | exact h
        | simpa [cursorOK] using h
        | (match load with
           | none => simpa [cursorOK] using h
           | some (lines, modTime) =>
             dsimp only
             simp only [cursorOK, normalizeSelection]
             split_ifs <;> exact clampCursor_mem _ _)

theorem applyCurrentEdit_mode (m : Model) (v : Str) :
    (applyCurrentEdit m v).mode = m.mode := by
  unfold applyCurrentEdit
  cases m.editTarget <;> cases m.editIntent <;> dsimp only <;>
    first
      | (split_ifs <;> simp [saveUndoState])
      | simp [saveUndoState]

theorem cursorOK_editKeyEnter_normal (m : Model) (hm : m.mode = .modeEdit)
    (hres : (editKeyEnter m).mode = .modeNormal) : cursorOK (editKeyEnter m) := by
  unfold editKeyEnter at hres ⊢
  dsimp only at hres ⊢
  split_ifs at hres ⊢ with h1 h2
  · exact cursorOK_exitEditMode m
  · exfalso
    have hmode : (applyCurrentEdit m m.textInputValue).mode = m.mode :=
      applyCurrentEdit_mode m m.textInputValue
    simp only [saveOk] at hres
    rw [hmode, hm] at hres
    exact absurd hres (by decide)
  · exact cursorOK_exitEditMode _

/-- Claim C4 (amended): after each length-changing operation that ends in
or passes through Normal mode — delete, undo, redo, commit via
`finishEdit` or Esc, reload from disk — the cursor is re-clamped into
`[0, len-1]` (or `0` when the document is empty).  The exception forced
by the counterexample below is Enter's commit-and-continue while editing
a task, which stays in edit-insert mode and deliberately parks the cursor
on the phantom insert row, which may sit at index `len`. -/
theorem c4_cursor_clamped (m : Model) (h : cursorOK m) :
    cursorOK (deleteCurrentLine m) ∧ cursorOK (undo m) ∧ cursorOK (redo m) ∧
    cursorOK (finishEdit m) ∧ cursorOK (editKeyEsc m) ∧
    (∀ (st : StatResult) (load : Option (List LineItem × Int)),
      cursorOK (handleFileCheck m st load)) ∧
    (m.mode = .modeEdit → (editKeyEnter m).mode = .modeNormal →
      cursorOK (editKeyEnter m)) :=
  ⟨cursorOK_deleteCurrentLine m h, cursorOK_undo m h, cursorOK_redo m h,
   cursorOK_finishEdit m h, cursorOK_editKeyEsc m,
   fun st load => cursorOK_handleFileCheck m st load h,
   fun hm hres => cursorOK_editKeyEnter_normal m hm hres⟩

def c4Model : Model :=
  { baseModel with lines := [.lineTask ⟨[], str "-", false, str "a"⟩] }

/-- Witness for C4: the conjunction evaluated at a concrete one-task
state. -/
theorem c4_witness : cursorOK (deleteCurrentLine c4Model) ∧ cursorOK (undo c4Model) :=
  ⟨(c4_cursor_clamped c4Model (by decide)).1, (c4_cursor_clamped c4Model (by decide)).2.1⟩

def c4Mid : Model := editKeyEnter { startEditTask c4Model with textInputValue := str "b" }

def c4After : Model := editKeyEnter { c4Mid with textInputValue := str "c" }

/-- Claim C4 as frozen is false: starting from a clamped one-task state,
editing the task and pressing Enter twice commits an insert (the document
grows by one) yet leaves the cursor at index `len`, outside `[0, len-1]`
— the session re-enters insert mode on the phantom row below the last
line. -/
theorem c4_counterexample :
    cursorOK c4Model ∧
    c4After.lines.length = c4Mid.lines.length + 1 ∧
    ¬cursorOK c4After := by decide

/-! ## Claim C5: beginning a task insert -/

/-- Modelled from the claim's words, for comparison with the code: the
indent/bullet template of the nearest preceding Task in the Document
(scanning from the cursor position towards index 0, the cursor's own line
included). -/
def nearestPrecedingTaskTemplate (lines : List LineItem) (cursor : Nat) : Option Task :=
  match (lines.take (cursor + 1)).reverse.find? LineItem.isTask with
  | some (.lineTask t) => some ⟨t.Indent, t.Bullet, false, []⟩
  | _ => none

/-- Claim C5 (amended): `startInsertTaskAt` clamps the requested index
into `[0, len]` (`0` when the document is empty), starts with an empty
draft in edit-insert mode with the cursor on the insert row, and carries
as template the indent/bullet of the task under the cursor when the
cursor is on a Task — otherwise the previously stored template (the
first task of the document as of the last load/reload), NOT the nearest
preceding Task. -/
theorem c5_startInsertTaskAt_spec (m : Model) (idx : Int) :
    (startInsertTaskAt m idx).insertIndex =
      (if m.lines = [] then 0 else clampIndex idx m.lines.length) ∧
    0 ≤ (startInsertTaskAt m idx).insertIndex ∧
    (startInsertTaskAt m idx).insertIndex ≤ (m.lines.length : Int) ∧
    (startInsertTaskAt m idx).textInputValue = [] ∧
    (startInsertTaskAt m idx).mode = .modeEdit ∧
    (startInsertTaskAt m idx).editIntent = .editIntentInsert ∧
    (startInsertTaskAt m idx).cursor = (startInsertTaskAt m idx).insertIndex ∧
    (∀ t : Task, m.lines ≠ [] → 0 ≤ m.cursor → m.cursor < (m.lines.length : Int) →
      getLine m.lines m.cursor = .lineTask t →
      (startInsertTaskAt m idx).editTemplate = ⟨t.Indent, t.Bullet, false, []⟩) ∧
    (¬(m.lines ≠ [] ∧ 0 ≤ m.cursor ∧ m.cursor < (m.lines.length : Int) ∧
        (getLine m.lines m.cursor).isTask = true) →
      (startInsertTaskAt m idx).editTemplate = m.editTemplate) := by
  unfold startInsertTaskAt
  simp only [clearSelection]
  refine ⟨by trivial, ?_, ?_, by trivial, by trivial, by trivial, by trivial, ?_, ?_⟩
  · split_ifs
    · omega
    · exact (clampIndex_mem idx m.lines.length).1
  · split_ifs
    · simp
    · exact (clampIndex_mem idx m.lines.length).2
  · intro t hne h0 hlt hget
    rw [if_pos ⟨hne, h0, hlt, by rw [hget]; rfl⟩, hget]
  · intro hnot
    rw [if_neg hnot]

def c5Witness : Model :=
  { baseModel with lines := [.lineTask ⟨str "  ", str "*", true, str "z"⟩], cursor := 0 }

/-- Witness for C5: inserting below a task carries that task's
indent/bullet into the template, with `Completed` cleared. -/
theorem c5_witness :
    (startInsertTaskAt c5Witness 1).editTemplate = ⟨str "  ", str "*", false, []⟩ :=
  (c5_startInsertTaskAt_spec c5Witness 1).2.2.2.2.2.2.2.1
    ⟨str "  ", str "*", true, str "z"⟩ (by decide) (by decide) (by decide) (by decide)

def c5Model : Model :=
  { baseModel with
    lines := [.lineTask ⟨[], str "-", false, str "a"⟩,
              .lineTask ⟨str "    ", str "-", false, str "b"⟩,
              .lineSection (str "S")],
    cursor := 2,
    editTemplate := defaultTaskTemplate
      [.lineTask ⟨[], str "-", false, str "a"⟩,
       .lineTask ⟨str "    ", str "-", false, str "b"⟩,
       .lineSection (str "S")] }

/-- Claim C5 as frozen is false: with the cursor on the section header at
index 2, the nearest preceding Task is the indented task `"b"`, but the
code falls back to the stored template (the FIRST task of the document,
unindented `"a"`), so the insert template's indent is not the nearest
preceding Task's. -/
theorem c5_counterexample :
    nearestPrecedingTaskTemplate c5Model.lines 2 =
      some ⟨str "    ", str "-", false, []⟩ ∧
    some (startInsertTaskAt c5Model (c5Model.cursor + 1)).editTemplate ≠
      nearestPrecedingTaskTemplate c5Model.lines 2 := by decide

/-! ## Claim C8: toggling a selection range -/

theorem toggleInRangeFrom_getElem (s e : Int) (lines : List LineItem) :
    ∀ (k i : Nat),
      (toggleInRangeFrom s e k lines)[i]? =
        (lines[i]?).map (fun item =>
          if s ≤ ((k + i : Nat) : Int) ∧ ((k + i : Nat) : Int) ≤ e then toggleItem item
          else item) := by
  induction lines with
  | nil => intro k i; simp [toggleInRangeFrom]
  | cons a rest ih =>
    intro k i
    cases i with
    | zero => simp [toggleInRangeFrom]
    | succ n =>
      have harith : k + (n + 1) = (k + 1) + n := by omega
      simp only [toggleInRangeFrom, List.getElem?_cons_succ, harith]
      exact ih (k + 1) n

/-- Claim C8 (confirmed): with an active selection of effective range
`[s,e]`, the toggle key flips the `Completed` flag of every Task at an
index in the range — each one inverted independently, all other fields
kept — leaves every SectionHeader unchanged (in range or not), and
leaves items outside the range unchanged. -/
theorem c8_toggleRange_flips (m : Model) (s e : Int)
    (hsel : selectionRange m = some (s, e)) :
    (∀ i : Nat,
      (toggleKey m).lines[i]? =
        (m.lines[i]?).map (fun item =>
          if s ≤ (i : Int) ∧ (i : Int) ≤ e then toggleItem item else item)) ∧
    (∀ t : Task,
      toggleItem (.lineTask t) = .lineTask ⟨t.Indent, t.Bullet, !t.Completed, t.Text⟩) ∧
    (∀ title : Str, toggleItem (.lineSection title) = .lineSection title) := by
  have hcond : ¬(¬m.selectionActive = true ∨ m.lines = []) := by
    intro hor
    unfold selectionRange at hsel
    rw [if_pos hor] at hsel
    exact absurd hsel (by simp)
  push_neg at hcond
  obtain ⟨hact, hne⟩ := hcond
  refine ⟨?_, fun t => rfl, fun title => rfl⟩
  intro i
  have hlines : (toggleKey m).lines = toggleInRange m.lines s e := by
    unfold toggleKey
    rw [if_neg hne, if_pos hact, hsel]
    dsimp only
    split_ifs <;> simp [saveOk]
  rw [hlines]
  unfold toggleInRange
  have := toggleInRangeFrom_getElem s e m.lines 0 i
  simpa using this

def c8Model : Model :=
  { baseModel with
    lines := [.lineTask ⟨[], str "-", true, str "a"⟩,
              .lineSection (str "S"),
              .lineTask ⟨[], str "-", false, str "b"⟩],
    cursor := 2, selectionActive := true, selectionAnchor := 0 }

/-- Witness for C8: the per-index description evaluated on a concrete
mixed selection covering the whole document. -/
theorem c8_witness :
    (toggleKey c8Model).lines[1]? =
      (c8Model.lines[1]?).map (fun item =>
        if (0 : Int) ≤ (1 : Nat) ∧ ((1 : Nat) : Int) ≤ 2 then toggleItem item else item) :=
  (c8_toggleRange_flips c8Model 0 2 (by decide)).1 1

example :
    (toggleKey c8Model).lines =
      [.lineTask ⟨[], str "-", false, str "a"⟩,
       .lineSection (str "S"),
       .lineTask ⟨[], str "-", true, str "b"⟩] := by decide

/-! ## Claim C9: the periodic reconciliation tick -/

/-- Selection sanity after re-clamping: an active selection only exists
over a non-empty document with its anchor in `[0, len-1]`. -/
def selOK (m : Model) : Prop :=
  m.selectionActive = true →
    m.lines ≠ [] ∧ 0 ≤ m.selectionAnchor ∧ m.selectionAnchor < (m.lines.length : Int)

theorem selOK_normalizeSelection (m : Model) : selOK (normalizeSelection m) := by
  unfold selOK normalizeSelection
  dsimp only
  by_cases h1 : m.selectionActive = true
  · rw [if_neg (not_not_intro h1)]
    by_cases h2 : m.lines = []
    · rw [if_pos h2]
      intro hact
      simp at hact
    · rw [if_neg h2]
      intro hact
      have hlen : 0 < m.lines.length := List.length_pos.mpr h2
      dsimp only
      split_ifs <;> exact ⟨h2, by omega, by omega⟩
  · rw [if_pos h1]
    intro hact
    exact absurd hact h1

/-- Claim C9 (confirmed): on a tick, a missing file or a modification
time not strictly later than the last known one leaves the state exactly
unchanged; a strictly later time during an edit session only sets
`pendingReload` (the whole rest of the state, document included, is
untouched); only in Normal mode is the document replaced by the data
read from disk, with the cursor clamped to the new length, the selection
re-normalized, and the timestamp updated. -/
theorem c9_file_check (m : Model) (load : Option (List LineItem × Int)) :
    handleFileCheck m .notExist load = m ∧
    (∀ t : Int, ¬t > m.lastModifiedAt → handleFileCheck m (.found t) load = m) ∧
    (∀ t : Int, t > m.lastModifiedAt → m.mode = .modeEdit →
      handleFileCheck m (.found t) load = { m with pendingReload := true }) ∧
    (∀ (t modTime : Int) (lines : List LineItem),
      t > m.lastModifiedAt → m.mode = .modeNormal → load = some (lines, modTime) →
      (handleFileCheck m (.found t) load).lines = lines ∧
      (handleFileCheck m (.found t) load).cursor = clampCursor m.cursor lines.length ∧
      (handleFileCheck m (.found t) load).lastModifiedAt = modTime ∧
      (handleFileCheck m (.found t) load).pendingReload = m.pendingReload ∧
      selOK (handleFileCheck m (.found t) load)) := by
  refine ⟨rfl, ?_, ?_, ?_⟩
  · intro t ht
    unfold handleFileCheck
    dsimp only
    rw [if_pos ht]
  · intro t ht hm
    unfold handleFileCheck
    dsimp only
    rw [if_neg (by simpa using ht), if_pos hm]
  · intro t modTime lines ht hm hload
    unfold handleFileCheck
    dsimp only
    rw [if_neg (by simpa using ht), if_neg (by rw [hm]; decide), hload]
    dsimp only
    have hsel := selOK_normalizeSelection
      { m with lines := lines, cursor := clampCursor m.cursor lines.length }
    refine ⟨?_, ?_, rfl, ?_, ?_⟩
    · show (normalizeSelection _).lines = lines
      unfold normalizeSelection
      dsimp only
      split_ifs <;> rfl
    · show (normalizeSelection _).cursor = _
      unfold normalizeSelection
      dsimp only
      split_ifs <;> rfl
    · show (normalizeSelection _).pendingReload = _
      unfold normalizeSelection
      dsimp only
      split_ifs <;> rfl
    · unfold selOK at hsel ⊢
      intro hact
      have hact2 : (normalizeSelection
          { m with lines := lines, cursor := clampCursor m.cursor lines.length }).selectionActive
            = true := hact
      have := hsel hact2
      exact this

def c9Model : Model :=
  { baseModel with
    lines := [.lineTask ⟨[], str "-", false, str "a"⟩],
    mode := .modeEdit, editIntent := .editIntentUpdate, editIndex := 0,
    lastModifiedAt := 3 }

/-- Witness for C9: a strictly later on-disk timestamp during an edit
session only raises the `pendingReload` flag. -/
theorem c9_witness :
    handleFileCheck c9Model (.found 7) none = { c9Model with pendingReload := true } :=
  (c9_file_check c9Model none).2.2.1 7 (by decide) rfl

/-! ## Claim C10: applying the external editor's result -/

/-- Claim C10 (confirmed): the external editor's result is applied only
when the remembered index still points at a Task inside the document and
the edited text is non-blank after trimming; an editor error, a read
error, a blank result, an out-of-bounds index, or an index now holding a
SectionHeader leaves the document unchanged, and the remembered index is
reset in every case. -/
theorem c10_editor_finished_safe (m : Model) (s : Str) :
    (handleEditorFinished m .procFailed).lines = m.lines ∧
    (handleEditorFinished m .readFailed).lines = m.lines ∧
    (handleEditorFinished m .procFailed).externalEditIdx = -1 ∧
    (handleEditorFinished m .readFailed).externalEditIdx = -1 ∧
    (handleEditorFinished m (.content s)).externalEditIdx = -1 ∧
    (trimSpace s = [] → (handleEditorFinished m (.content s)).lines = m.lines) ∧
    (¬(0 ≤ m.externalEditIdx ∧ m.externalEditIdx < (m.lines.length : Int) ∧
        (getLine m.lines m.externalEditIdx).isTask = true) →
      (handleEditorFinished m (.content s)).lines = m.lines) ∧
    (trimSpace s ≠ [] →
      (0 ≤ m.externalEditIdx ∧ m.externalEditIdx < (m.lines.length : Int) ∧
        (getLine m.lines m.externalEditIdx).isTask = true) →
      (handleEditorFinished m (.content s)).lines =
        modifyIdx m.lines m.externalEditIdx.toNat
          (fun it => match it with
            | .lineTask t => .lineTask ⟨t.Indent, t.Bullet, t.Completed, trimSpace s⟩
            | other => other)) := by
  refine ⟨rfl, rfl, rfl, rfl, ?_, ?_, ?_, ?_⟩
  · unfold handleEditorFinished
    dsimp only
    split_ifs <;> rfl
  · intro hblank
    unfold handleEditorFinished
    dsimp only
    rw [if_pos hblank]
  · intro hguard
    unfold handleEditorFinished
    dsimp only
    split_ifs with h1
    · rfl
    · rfl
  · intro hblank hguard
    unfold handleEditorFinished
    dsimp only
    rw [if_neg hblank, if_pos hguard]
    simp [saveOk]

def c10Model : Model :=
  { baseModel with
    lines := [.lineSection (str "S")], externalEditIdx := 0 }

/-- Witness for C10: the edited text is discarded when the remembered
index now points at a SectionHeader, and the document stays unchanged. -/
theorem c10_witness :
    (handleEditorFinished c10Model (.content (str "edited"))).lines = c10Model.lines :=
  (c10_editor_finished_safe c10Model (str "edited")).2.2.2.2.2.2.1 (by decide)

/-! ## Claim C7: undo/redo round trip -/

theorem undo_concat (m : Model) (u : List UndoState) (st : UndoState)
    (h : m.undoStack = u ++ [st]) :
    (undo m).lines = st.lines ∧
    (undo m).cursor = clampCursor st.cursor st.lines.length ∧
    (undo m).undoStack = u ∧
    (undo m).redoStack = m.redoStack ++ [⟨m.lines, m.cursor⟩] := by
  unfold undo
  rw [h, List.getLast?_concat]
  dsimp only
  refine ⟨rfl, rfl, ?_, rfl⟩
  rw [List.dropLast_concat]

/-- Claim C7 (confirmed): whenever the undo stack is non-empty, `undo`
followed immediately by `redo` restores exactly the document (by value)
that held before the undo, and — for any state satisfying the documented
cursor invariant — the exact cursor as well; with an empty undo stack,
`undo` changes neither the document, the cursor, nor either stack. -/
theorem c7_undo_redo_roundtrip (m : Model) :
    (m.undoStack ≠ [] →
      (redo (undo m)).lines = m.lines ∧
      (cursorOK m → (redo (undo m)).cursor = m.cursor)) ∧
    (m.undoStack = [] →
      (undo m).lines = m.lines ∧ (undo m).cursor = m.cursor ∧
      (undo m).undoStack = [] ∧ (undo m).redoStack = m.redoStack) := by
  constructor
  · intro hne
    obtain ⟨u, st, hu⟩ : ∃ u st, m.undoStack = u ++ [st] := by
      rcases List.eq_nil_or_concat m.undoStack with h | ⟨u, st, h⟩
      · exact absurd h hne
      · exact ⟨u, st, by rw [h, List.concat_eq_append]⟩
    have h1 := undo_concat m u st hu
    unfold redo
    rw [h1.2.2.2, List.getLast?_concat]
    refine ⟨rfl, ?_⟩
    intro hok
    exact clampCursor_of_ok hok
  · intro hemp
    unfold undo
    rw [hemp]
    exact ⟨rfl, rfl, hemp, rfl⟩

def c7Model : Model :=
  { baseModel with
    lines := [.lineTask ⟨[], str "-", false, str "b"⟩],
    cursor := 0,
    undoStack := [⟨[], 0⟩] }

/-- Witness for C7: undo then redo on a concrete one-frame state restores
the document and cursor exactly. -/
theorem c7_witness :
    (redo (undo c7Model)).lines = c7Model.lines ∧
    (redo (undo c7Model)).cursor = c7Model.cursor :=
  ⟨((c7_undo_redo_roundtrip c7Model).1 (by decide)).1,
   ((c7_undo_redo_roundtrip c7Model).1 (by decide)).2 (by decide)⟩

/-! ## Claim C6: the bounded history -/

/-- The operations that touch the history stacks: an undo-tracked
mutation's push (`saveUndoState`), undo, redo, and — to cover arbitrary
interleaved document changes — a pure document mutation that leaves the
stacks alone. -/
inductive HistOp where
  | push
  | undoOp
  | redoOp
  | mutate (lines : List LineItem) (cursor : Int)

def applyHistOp (m : Model) : HistOp → Model
  | .push => saveUndoState m
  | .undoOp => undo m
  | .redoOp => redo m
  | .mutate lines cursor => { m with lines := lines, cursor := cursor }

def applyHistOps (m : Model) : List HistOp → Model
  | [] => m
  | op :: ops => applyHistOps (applyHistOp m op) ops

theorem histInv_applyHistOp (m : Model) (op : HistOp)
    (h : m.undoStack.length + m.redoStack.length ≤ maxUndoHistory) :
    (applyHistOp m op).undoStack.length + (applyHistOp m op).redoStack.length ≤
      maxUndoHistory := by
  cases op with
  | push =>
    show (saveUndoState m).undoStack.length + (saveUndoState m).redoStack.length ≤ _
    unfold saveUndoState
    dsimp only
    split_ifs with hlen
    · simp only [List.length_drop, List.length_append, List.length_cons, List.length_nil]
      omega
    · simp only [List.length_append, List.length_cons, List.length_nil] at hlen ⊢
      omega
  | undoOp =>
    show (undo m).undoStack.length + (undo m).redoStack.length ≤ _
    unfold undo
    cases hu : m.undoStack.getLast? with
    | none => exact h
    | some st =>
      dsimp only
      have hne : m.undoStack ≠ [] := by
        intro hnil
        rw [hnil] at hu
        exact absurd hu (by simp)
      have hpos : 0 < m.undoStack.length := List.length_pos.mpr hne
      simp only [List.length_dropLast, List.length_append, List.length_cons,
        List.length_nil]
      omega
  | redoOp =>
    show (redo m).undoStack.length + (redo m).redoStack.length ≤ _
    unfold redo
    cases hu : m.redoStack.getLast? with
    | none => exact h
    | some st =>
      dsimp only
      have hne : m.redoStack ≠ [] := by
        intro hnil
        rw [hnil] at hu
        exact absurd hu (by simp)
      have hpos : 0 < m.redoStack.length := List.length_pos.mpr hne
      simp only [List.length_dropLast, List.length_append, List.length_cons,
        List.length_nil]
      omega
  | mutate lines cursor => exact h

theorem histInv_applyHistOps (ops : List HistOp) : ∀ (m : Model),
    m.undoStack.length + m.redoStack.length ≤ maxUndoHistory →
    (applyHistOps m ops).undoStack.length + (applyHistOps m ops).redoStack.length ≤
      maxUndoHistory := by
  induction ops with
  | nil => intro m h; exact h
  | cons op ops ih =>
    intro m h
    exact ih (applyHistOp m op) (histInv_applyHistOp m op h)

/-- Claim C6 (confirmed): starting from the initial empty history, no
sequence of pushes, undos, redos and document mutations ever leaves more
than 10 frames on the undo stack; a push onto a full stack of 10 drops
exactly the oldest frame (the head) and appends the new one (FIFO
eviction, the newest survives); a push below the bound appends without
evicting; and every push clears the redo stack. -/
theorem c6_undo_stack_bounded :
    (∀ (m : Model) (ops : List HistOp),
      m.undoStack = [] → m.redoStack = [] →
      (applyHistOps m ops).undoStack.length ≤ maxUndoHistory) ∧
    (∀ m : Model, m.undoStack.length = maxUndoHistory →
      (saveUndoState m).undoStack = m.undoStack.tail ++ [⟨m.lines, m.cursor⟩]) ∧
    (∀ m : Model, m.undoStack.length < maxUndoHistory →
      (saveUndoState m).undoStack = m.undoStack ++ [⟨m.lines, m.cursor⟩]) ∧
    (∀ m : Model, (saveUndoState m).redoStack = []) := by
  refine ⟨?_, ?_, ?_, ?_⟩
  · intro m ops hu hr
    have h0 : m.undoStack.length + m.redoStack.length ≤ maxUndoHistory := by
      rw [hu, hr]; simp [maxUndoHistory]
    have := histInv_applyHistOps ops m h0
    omega
  · intro m hfull
    have hfull2 : m.undoStack.length = 10 := by simpa [maxUndoHistory] using hfull
    have hcond : (m.undoStack ++ [(⟨m.lines, m.cursor⟩ : UndoState)]).length > maxUndoHistory := by
      simp only [List.length_append, List.length_cons, List.length_nil, maxUndoHistory]
      omega
    unfold saveUndoState
    dsimp only
    rw [if_pos hcond, List.drop_append_of_le_length (by omega), List.drop_one]
  · intro m hlt
    have hlt2 : m.undoStack.length < 10 := by simpa [maxUndoHistory] using hlt
    have hcond : ¬(m.undoStack ++ [(⟨m.lines, m.cursor⟩ : UndoState)]).length > maxUndoHistory := by
      simp only [List.length_append, List.length_cons, List.length_nil, maxUndoHistory]
      omega
    unfold saveUndoState
    dsimp only
    rw [if_neg hcond]
  · intro m
    rfl

def c6Full : Model :=
  { baseModel with
    undoStack := [⟨[], 0⟩, ⟨[], 1⟩, ⟨[], 2⟩, ⟨[], 3⟩, ⟨[], 4⟩,
                  ⟨[], 5⟩, ⟨[], 6⟩, ⟨[], 7⟩, ⟨[], 8⟩, ⟨[], 9⟩] }

/-- Witness for C6: pushing onto a concrete full stack of 10 evicts
exactly the oldest frame, and a sequence of twelve pushes from the empty
history stays within the bound. -/
theorem c6_witness :
    (saveUndoState c6Full).undoStack =
      c6Full.undoStack.tail ++ [⟨c6Full.lines, c6Full.cursor⟩] ∧
    (applyHistOps baseModel
        [.push, .push, .push, .push, .push, .push,
         .push, .push, .push, .push, .push, .push]).undoStack.length ≤ maxUndoHistory :=
  ⟨c6_undo_stack_bounded.2.1 c6Full (by decide),
   c6_undo_stack_bounded.1 baseModel _ rfl rfl⟩

/-! ## Claim C1: which mutations are undo-tracked, and sequence undo -/

/-- The user-initiated mutating operations that the code undo-tracks:
delete of the current line (task or section), and the commit of a section
update / section insert (`applyCurrentEdit` with a section target).  Task
update/insert commits are NOT in this type because the code pushes no
frame for them — see the counterexample. -/
inductive TrackedOp where
  | deleteOp
  | sectionUpdateOp (value : Str)
  | sectionInsertOp (index : Int) (value : Str)

/-- Run one tracked operation: `deleteOp` is the `dd` handler; the
section ops are `startEditSection`/`startInsertSectionAt` followed by the
commit (`applyCurrentEdit`), which is where the mutation and the undo
push land (the remaining `exitEditMode` bookkeeping touches neither the
document nor the stacks). -/
def applyTrackedOp (m : Model) : TrackedOp → Model
  | .deleteOp => deleteCurrentLine m
  | .sectionUpdateOp v =>
      applyCurrentEdit
        { m with editTarget := .editTargetSection, editIntent := .editIntentUpdate,
                 editIndex := m.cursor } v
  | .sectionInsertOp i v =>
      applyCurrentEdit
        { m with editTarget := .editTargetSection, editIntent := .editIntentInsert,
                 insertIndex := i } v

/-- When a tracked operation actually lands (its guards pass): a delete
needs a line under the cursor; a section update needs the cursor on a
section header and a non-blank draft; a section insert needs a non-blank
draft. -/
def landsOp (m : Model) : TrackedOp → Prop
  | .deleteOp => 0 ≤ m.cursor ∧ m.cursor < (m.lines.length : Int)
  | .sectionUpdateOp v =>
      trimSpace v ≠ [] ∧ 0 ≤ m.cursor ∧ m.cursor < (m.lines.length : Int) ∧
      (getLine m.lines m.cursor).isSection = true
  | .sectionInsertOp _ v => trimSpace v ≠ []

instance (m : Model) (op : TrackedOp) : Decidable (landsOp m op) :=
  match op with
  | .deleteOp => inferInstanceAs (Decidable (_ ∧ _))
  | .sectionUpdateOp _ => inferInstanceAs (Decidable (_ ∧ _ ∧ _ ∧ _))
  | .sectionInsertOp _ _ => inferInstanceAs (Decidable (_ ≠ _))

def applyTrackedOps (m : Model) : List TrackedOp → Model
  | [] => m
  | op :: ops => applyTrackedOps (applyTrackedOp m op) ops

def undoN (m : Model) : Nat → Model
  | 0 => m
  | n + 1 => undo (undoN m n)

/-- A sequence of tracked operations in which every operation lands in
the state it is applied to. -/
inductive ValidSeq : Model → List TrackedOp → Prop where
  | nil (m : Model) : ValidSeq m []
  | cons (m : Model) (op : TrackedOp) (ops : List TrackedOp) :
      landsOp m op → ValidSeq (applyTrackedOp m op) ops → ValidSeq m (op :: ops)

theorem saveUndoState_stack (m : Model) (hlen : m.undoStack.length < maxUndoHistory) :
    (saveUndoState m).undoStack = m.undoStack ++ [⟨m.lines, m.cursor⟩] ∧
    (saveUndoState m).redoStack = [] := by
  have hlt2 : m.undoStack.length < 10 := by simpa [maxUndoHistory] using hlen
  have hcond : ¬(m.undoStack ++ [(⟨m.lines, m.cursor⟩ : UndoState)]).length > maxUndoHistory := by
    simp only [List.length_append, List.length_cons, List.length_nil, maxUndoHistory]
    omega
  unfold saveUndoState
  dsimp only
  rw [if_neg hcond]
  exact ⟨rfl, rfl⟩

theorem trackedOp_pushes (m : Model) (op : TrackedOp) (hl : landsOp m op)
    (hlen : m.undoStack.length < maxUndoHistory) :
    (applyTrackedOp m op).undoStack = m.undoStack ++ [⟨m.lines, m.cursor⟩] ∧
    (applyTrackedOp m op).redoStack = [] := by
  have hs := saveUndoState_stack m hlen
  cases op with
  | deleteOp =>
    obtain ⟨h0, hlt⟩ := hl
    have hne : m.lines ≠ [] := by
      intro hnil
      rw [hnil] at hlt
      simp at hlt
      omega
    show (deleteCurrentLine m).undoStack = _ ∧ (deleteCurrentLine m).redoStack = _
    unfold deleteCurrentLine
    rw [if_neg hne]
    by_cases hsec : (getLine m.lines m.cursor).isSection = true
    · rw [if_pos hsec]
      unfold deleteCurrentSection
      rw [if_neg (by
        intro hor
        rcases hor with h | h
        · exact hne h
        · exact h hsec)]
      dsimp only
      simp only [saveOk, clearSelection]
      exact hs
    · rw [if_neg hsec]
      unfold deleteCurrentTask
      have htask : (getLine m.lines m.cursor).isTask = true := by
        cases hg : getLine m.lines m.cursor with
        | lineTask t => rfl
        | lineSection title => rw [hg] at hsec; exact absurd rfl hsec
      rw [if_neg (by
        intro hor
        rcases hor with h | h
        · exact hne h
        · exact h htask)]
      dsimp only
      simp only [saveOk, clearSelection]
      exact hs
  | sectionUpdateOp v =>
    obtain ⟨hv, h0, hlt, hsec⟩ := hl
    have hne : m.lines ≠ [] := by
      intro hnil
      rw [hnil] at hlt
      simp at hlt
      omega
    show (applyCurrentEdit _ v).undoStack = _ ∧ (applyCurrentEdit _ v).redoStack = _
    unfold applyCurrentEdit
    dsimp only
    rw [if_neg hne, if_pos ⟨h0, hlt, hsec⟩]
    dsimp only
    exact saveUndoState_stack _ hlen
  | sectionInsertOp i v =>
    show (applyCurrentEdit _ v).undoStack = _ ∧ (applyCurrentEdit _ v).redoStack = _
    unfold applyCurrentEdit
    dsimp only
    exact saveUndoState_stack _ hlen

theorem undoN_restores (ops : List TrackedOp) : ∀ m : Model,
    ValidSeq m ops → m.undoStack.length + ops.length ≤ maxUndoHistory →
    (undoN (applyTrackedOps m ops) ops.length).lines = m.lines ∧
    (undoN (applyTrackedOps m ops) ops.length).undoStack = m.undoStack := by
  induction ops with
  | nil => intro m _ _; exact ⟨rfl, rfl⟩
  | cons op ops ih =>
    intro m hvalid hlen
    cases hvalid with
    | cons _ _ _ hl hrest =>
      have hlt : m.undoStack.length < maxUndoHistory := by
        simp only [List.length_cons] at hlen
        omega
      have hpush := trackedOp_pushes m op hl hlt
      have hlen2 : (applyTrackedOp m op).undoStack.length + ops.length ≤ maxUndoHistory := by
        rw [hpush.1]
        simp only [List.length_append, List.length_cons, List.length_nil]
        simp only [List.length_cons] at hlen
        omega
      have ihres := ih (applyTrackedOp m op) hrest hlen2
      show (undo (undoN (applyTrackedOps (applyTrackedOp m op) ops) ops.length)).lines = _ ∧
        (undo (undoN (applyTrackedOps (applyTrackedOp m op) ops) ops.length)).undoStack = _
      have hstack : (undoN (applyTrackedOps (applyTrackedOp m op) ops) ops.length).undoStack =
          m.undoStack ++ [⟨m.lines, m.cursor⟩] := by
        rw [ihres.2, hpush.1]
      have hu := undo_concat _ m.undoStack ⟨m.lines, m.cursor⟩ hstack
      exact ⟨hu.1, hu.2.2.1⟩

/-- Claim C1 (amended): delete of the current line and the commit of a
section insert/update each push exactly one undo frame — a copy of the
pre-mutation document plus cursor — and clear the redo stack; and for any
document and any valid sequence of at most `10 - |undoStack|` such
tracked operations, applying `undo` once per operation in reverse order
restores the document exactly.  (Task text-update and task-insert
commits push NO frame — see the counterexample — so they are excluded
from the tracked operations.) -/
theorem c1_tracked_undo_restores :
    (∀ (m : Model) (op : TrackedOp), landsOp m op →
      m.undoStack.length < maxUndoHistory →
      (applyTrackedOp m op).undoStack = m.undoStack ++ [⟨m.lines, m.cursor⟩] ∧
      (applyTrackedOp m op).redoStack = []) ∧
    (∀ (m : Model) (ops : List TrackedOp), ValidSeq m ops →
      m.undoStack.length + ops.length ≤ maxUndoHistory →
      (undoN (applyTrackedOps m ops) ops.length).lines = m.lines) :=
  ⟨trackedOp_pushes, fun m ops hv hl => (undoN_restores ops m hv hl).1⟩

def c1Start : Model := { baseModel with lines := [.lineSection (str "S")] }

def c1Ops : List TrackedOp := [.sectionUpdateOp (str "T"), .deleteOp]

/-- Witness for C1: retitling the section and then deleting it, followed
by two undos, restores the original document. -/
theorem c1_witness :
    (undoN (applyTrackedOps c1Start c1Ops) c1Ops.length).lines = c1Start.lines :=
  c1_tracked_undo_restores.2 c1Start c1Ops
    (ValidSeq.cons _ _ _ (by decide) (ValidSeq.cons _ _ _ (by decide) (ValidSeq.nil _)))
    (by decide)

def c1Bad : Model :=
  { baseModel with
    lines := [.lineTask ⟨[], str "-", false, str "a"⟩],
    cursor := 0, mode := .modeEdit, editIntent := .editIntentUpdate,
    editTarget := .editTargetTask, editIndex := 0, textInputValue := str "b" }

/-- Claim C1 as frozen is false: committing a task text update (a
user-initiated mutating action) mutates the document but pushes no undo
frame — the undo stack stays empty — so a subsequent undo cannot restore
the prior document. -/
theorem c1_counterexample :
    (finishEdit c1Bad).lines ≠ c1Bad.lines ∧
    (finishEdit c1Bad).undoStack = [] ∧
    (undo (finishEdit c1Bad)).lines = (finishEdit c1Bad).lines := by decide

end LazyTodo
